import Mathlib

/-!
A verification development for the wgslsmith-flow repository: shallow
embeddings of the type-constraint lattice, the expression generator, the
reconditioner's variable-access scan, and the statement writer, together
with theorems settling the specified properties.
-/

set_option maxHeartbeats 1000000

/-! ## The type-constraint lattice of `src/types.rs` (root crate)

`DataType` is a three-variant enum with explicit discriminants
(`Bool = 1`, `SInt = 2`, `UInt = 4`); `TypeConstraints` is a `u32`
bitmask over those discriminants.  We embed the mask as a `Nat`.
-/

namespace types0

/-- `DataType` from `src/types.rs` with its discriminants. -/
inductive DataType where
  | Bool
  | SInt
  | UInt
deriving DecidableEq, Repr, Fintype

/-- The explicit discriminant of each `DataType` variant (`t as u32`). -/
def DataType.discr : DataType → Nat
  | .Bool => 1
  | .SInt => 2
  | .UInt => 4

/-- `TypeConstraints::BOOL = TypeConstraints(1)`. -/
def BOOL : Nat := 1

/-- `TypeConstraints::SINT = TypeConstraints(2)`. -/
def SINT : Nat := 2

/-- `TypeConstraints::UINT = TypeConstraints(4)`. -/
def UINT : Nat := 4

/-- `TypeConstraints::union`: bitwise or of the two masks. -/
def union (a b : Nat) : Nat := a ||| b

/-- `TypeConstraints::INT = SINT.union(UINT)`. -/
def INT : Nat := union SINT UINT

/-- `TypeConstraints::UNCONSTRAINED = BOOL.union(INT)`. -/
def UNCONSTRAINED : Nat := union BOOL INT

/-- `TypeConstraints::intersection`: bitwise and, with `None` signalling
the empty mask. -/
def intersection (a b : Nat) : Option Nat :=
  let i := a &&& b
  if i = 0 then none else some i

/-- `u32::count_ones` restricted to the 32 bit positions the `select`
loop scans. -/
def count_ones (mask : Nat) : Nat :=
  ((List.range 32).filter (fun i => mask &&& (1 <<< i) != 0)).length

/-- The `match 1 << i { 1 => Bool, 2 => SInt, 4 => UInt, _ => unreachable }`
arm inside `select`; `none` models the `unreachable!()` panic. -/
def bitVariant (b : Nat) : Option DataType :=
  match b with
  | 1 => some .Bool
  | 2 => some .SInt
  | 4 => some .UInt
  | _ => none

/-- The `for i in 0..32` scan of `select`, with `j` the running count of
set bits already passed and `n` the sampled index; the final
`unreachable!()` is `none`. -/
def selectGo (mask : Nat) : List Nat → Nat → Nat → Option DataType
  | [], _, _ => none
  | i :: rest, n, j =>
    if mask &&& (1 <<< i) != 0 then
      if j = n then bitVariant (1 <<< i)
      else selectGo mask rest n (j + 1)
    else selectGo mask rest n j

/-- `TypeConstraints::select` from `src/types.rs`.  The function draws its
sample `n` from `rand::thread_rng().gen_range(0..count_ones)` — a
thread-local RNG, not a caller-supplied seeded one — so the embedding
takes the thread-local draw `t` as an explicit argument.  `gen_range` on
an empty range panics (`none`); otherwise the sampled index is uniform in
`[0, count_ones)`, embedded as `t % count_ones`. -/
def select (mask : Nat) (t : Nat) : Option DataType :=
  if count_ones mask = 0 then none
  else selectGo mask (List.range 32) (t % count_ones mask) 0

end types0

/-! ## The reconditioner's variable-access scan
(`harness/crates/harness/src/utils.rs`)

The `ast` crate's node types are reconstructed from the spec (§3) and
from the exhaustive pattern matches in `utils.rs`; the visitor functions
below are line-for-line embeddings of `remove_accessed_vars`,
`visit_stmt`, `visit_lhs_expr`, `visit_expr` and `visit_postfix`, with
the mutable `HashSet<String>` made an explicit `Finset String`
accumulator. -/

namespace harness

/-- Scalar component types of the shader type system (spec §3). -/
inductive ScalarType where
  | bool
  | i32
  | u32
deriving DecidableEq, Repr

/-- Modelled from the spec: `DataType` is `Scalar(ScalarType)` or
`Vector(n, ScalarType)` with `n ∈ {2,3,4}`. -/
inductive DataType where
  | scalar (t : ScalarType)
  | vector (n : Nat) (t : ScalarType)
deriving DecidableEq, Repr

/-- Literals: `Bool(b)`, `Int(i32)`, `UInt(u32)` (spec §3); integer
payloads are kept as the 32-bit pattern. -/
inductive Lit where
  | bool (b : Bool)
  | int (pattern : Nat)
  | uint (pattern : Nat)
deriving DecidableEq, Repr

/-- Unary operators (spec §3). -/
inductive UnOp where
  | neg
  | not
  | bitNot
deriving DecidableEq, Repr

/-- Binary operators (spec §3). -/
inductive BinOp where
  | plus | minus | times | divide | mod
  | bitAnd | bitOr | bitXOr | lShift | rShift
  | logAnd | logOr
deriving DecidableEq, Repr

mutual

/-- An expression node carrying its resolved type (spec §3). -/
inductive ExprNode where
  | mk (dataType : DataType) (expr : Expr)

/-- Expression variants matched by `visit_expr` in `utils.rs`. -/
inductive Expr where
  | lit (l : Lit)
  | typeCons (t : DataType) (args : List ExprNode)
  | var (ident : String)
  | Postfix (e : ExprNode) (p : Postfix)
  | unOp (op : UnOp) (e : ExprNode)
  | binOp (op : BinOp) (left : ExprNode) (right : ExprNode)
  | fnCall (name : String) (args : List ExprNode)

/-- `Postfix ∈ {ArrayIndex(expr), Member(name)}` (spec §3). -/
inductive Postfix where
  | arrayIndex (index : ExprNode)
  | member (field : String)

/-- A left-hand-side expression node, as matched by `visit_lhs_expr`. -/
inductive LhsExprNode where
  | mk (dataType : DataType) (expr : LhsExpr)

/-- LHS expression variants matched by `visit_lhs_expr`. -/
inductive LhsExpr where
  | ident (name : String)
  | Postfix (e : LhsExprNode) (p : Postfix)

end

/-- `AssignmentLhs` is `Phony` or an LHS expression (per `utils.rs`). -/
inductive AssignmentLhs where
  | phony
  | expr (e : LhsExprNode)

/-- The assignment statement's payload (`stmt.lhs`, `stmt.rhs`). -/
structure AssignmentStatement where
  lhs : AssignmentLhs
  rhs : ExprNode

/-- The var-declaration payload (`decl.initializer` is optional). -/
structure VarDeclStatement where
  name : String
  initializer : Option ExprNode

/-- `ForLoopInit`: only a var-decl form is matched in `utils.rs`. -/
inductive ForLoopInit where
  | varDecl (stmt : VarDeclStatement)

/-- `ForLoopUpdate`: only an assignment form is matched in `utils.rs`. -/
inductive ForLoopUpdate where
  | assignment (stmt : AssignmentStatement)

/-- The for-loop header with optional init, condition and update. -/
structure ForLoopHeader where
  init : Option ForLoopInit
  condition : Option ExprNode
  update : Option ForLoopUpdate

mutual

/-- Statement variants, one per arm of `visit_stmt` in `utils.rs`. -/
inductive Statement where
  | letDecl (name : String) (initializer : ExprNode)
  | varDecl (decl : VarDeclStatement)
  | assignment (stmt : AssignmentStatement)
  | compound (stmts : List Statement)
  | ifStmt (condition : ExprNode) (body : List Statement) (else_ : Option Else)
  | ret (value : Option ExprNode)
  | loop (body : List Statement)
  | brk
  | switch (selector : ExprNode) (cases : List SwitchCase) (default : List Statement)
  | forLoop (header : ForLoopHeader) (body : List Statement)

/-- `ast::Else`: either a chained `else if` or a final `else` block. -/
inductive Else where
  | ifBranch (condition : ExprNode) (body : List Statement) (else_ : Option Else)
  | elseBranch (body : List Statement)

/-- A switch case: a literal selector and a body. -/
inductive SwitchCase where
  | mk (selector : Lit) (body : List Statement)

end

/-- A function declaration; `remove_accessed_vars` only walks `body`. -/
structure FnDecl where
  name : String
  body : List Statement

/-- A module: an ordered sequence of function declarations (spec §3). -/
structure Module where
  functions : List FnDecl

mutual

/-- `visit_expr` from `utils.rs`: removes every `Var` identifier that is
read, descending into arguments, postfixes and operands. -/
def visit_expr (vars : Finset String) (node : ExprNode) : Finset String :=
  match node with
  | .mk _ e =>
    match e with
    | .lit _ => vars
    | .typeCons _ args => visit_exprs vars args
    | .var ident => vars.erase ident
    | .Postfix e p => visit_postfix (visit_expr vars e) p
    | .unOp _ e => visit_expr vars e
    | .binOp _ left right => visit_expr (visit_expr vars left) right
    | .fnCall _ args => visit_exprs vars args

/-- The `for arg in args` loops of `visit_expr`. -/
def visit_exprs (vars : Finset String) (es : List ExprNode) : Finset String :=
  match es with
  | [] => vars
  | e :: rest => visit_exprs (visit_expr vars e) rest

/-- `visit_postfix` from `utils.rs`: an array index is a read, a member
access is not. -/
def visit_postfix (vars : Finset String) (p : Postfix) : Finset String :=
  match p with
  | .arrayIndex index => visit_expr vars index
  | .member _ => vars

/-- `visit_lhs_expr` from `utils.rs`: note that a plain `Ident` on the
LHS is removed from the candidate set. -/
def visit_lhs_expr (vars : Finset String) (node : LhsExprNode) : Finset String :=
  match node with
  | .mk _ e =>
    match e with
    | .ident ident => vars.erase ident
    | .Postfix e p => visit_postfix (visit_lhs_expr vars e) p

end

mutual

/-- `visit_stmt` from `utils.rs`, arm for arm. -/
def visit_stmt (vars : Finset String) (s : Statement) : Finset String :=
  match s with
  | .letDecl _ initializer => visit_expr vars initializer
  | .varDecl decl =>
    match decl.initializer with
    | some init => visit_expr vars init
    | none => vars
  | .assignment stmt =>
    let vars :=
      match stmt.lhs with
      | .phony => vars
      | .expr e => visit_lhs_expr vars e
    visit_expr vars stmt.rhs
  | .compound stmts => visit_stmts vars stmts
  | .ifStmt condition body else_ =>
    let vars := visit_expr vars condition
    let vars := visit_stmts vars body
    visit_else_opt vars else_
  | .ret value =>
    match value with
    | some e => visit_expr vars e
    | none => vars
  | .loop body => visit_stmts vars body
  | .brk => vars
  | .switch selector cases default =>
    let vars := visit_expr vars selector
    let vars := visit_cases vars cases
    visit_stmts vars default
  | .forLoop header body =>
    let vars :=
      match header.init with
      | some (.varDecl stmt) =>
        match stmt.initializer with
        | some init => visit_expr vars init
        | none => vars
      | none => vars
    let vars :=
      match header.condition with
      | some condition => visit_expr vars condition
      | none => vars
    let vars :=
      match header.update with
      | some (.assignment stmt) =>
        let vars :=
          match stmt.lhs with
          | .phony => vars
          | .expr e => visit_lhs_expr vars e
        visit_expr vars stmt.rhs
      | none => vars
    visit_stmts vars body

/-- The `for stmt in ...` loops of `visit_stmt`. -/
def visit_stmts (vars : Finset String) (ss : List Statement) : Finset String :=
  match ss with
  | [] => vars
  | s :: rest => visit_stmts (visit_stmt vars s) rest

/-- The `while let Some(e) = else_` loop of the `If` arm, written as
recursion over the else chain. -/
def visit_else_opt (vars : Finset String) (oe : Option Else) : Finset String :=
  match oe with
  | none => vars
  | some (.ifBranch condition body else_) =>
    visit_else_opt (visit_stmts (visit_expr vars condition) body) else_
  | some (.elseBranch body) => visit_stmts vars body

/-- The `for case in &stmt.cases` loop of the `Switch` arm. -/
def visit_cases (vars : Finset String) (cs : List SwitchCase) : Finset String :=
  match cs with
  | [] => vars
  | .mk _ body :: rest => visit_cases (visit_stmts vars body) rest

end

/-- The `for decl in &module.functions` loop of `remove_accessed_vars`. -/
def visit_fns (vars : Finset String) (fs : List FnDecl) : Finset String :=
  match fs with
  | [] => vars
  | f :: rest => visit_fns (visit_stmts vars f.body) rest

/-- `remove_accessed_vars` from `utils.rs`. -/
def remove_accessed_vars (vars : Finset String) (m : Module) : Finset String :=
  visit_fns vars m.functions

end harness

namespace harness

/-! The accessed-name sets: `accessed_*` characterises exactly which
names the `visit_*` functions remove (so plain LHS identifiers are
included), while `specReads_*` follows the spec's words — only `Var`
reads in expressions count, a plain `Assignment` LHS identifier does
not, but index expressions under `Postfix::ArrayIndex` do. -/

mutual

/-- Names the code treats as accessed inside an expression. -/
def accessed_expr : ExprNode → Finset String
  | .mk _ e =>
    match e with
    | .lit _ => ∅
    | .typeCons _ args => accessed_exprs args
    | .var ident => {ident}
    | .Postfix e p => accessed_expr e ∪ accessed_postfix p
    | .unOp _ e => accessed_expr e
    | .binOp _ left right => accessed_expr left ∪ accessed_expr right
    | .fnCall _ args => accessed_exprs args

/-- Accessed names of an argument list. -/
def accessed_exprs : List ExprNode → Finset String
  | [] => ∅
  | e :: rest => accessed_expr e ∪ accessed_exprs rest

/-- Accessed names of a postfix. -/
def accessed_postfix : Postfix → Finset String
  | .arrayIndex index => accessed_expr index
  | .member _ => ∅

/-- Accessed names of an assignment LHS: the base identifier counts. -/
def accessed_lhs : LhsExprNode → Finset String
  | .mk _ e =>
    match e with
    | .ident ident => {ident}
    | .Postfix e p => accessed_lhs e ∪ accessed_postfix p

end

mutual

/-- Accessed names of a statement. -/
def accessed_stmt : Statement → Finset String
  | .letDecl _ initializer => accessed_expr initializer
  | .varDecl decl =>
    match decl.initializer with
    | some init => accessed_expr init
    | none => ∅
  | .assignment stmt =>
    (match stmt.lhs with
      | .phony => ∅
      | .expr e => accessed_lhs e) ∪ accessed_expr stmt.rhs
  | .compound stmts => accessed_stmts stmts
  | .ifStmt condition body else_ =>
    accessed_expr condition ∪ accessed_stmts body ∪ accessed_else_opt else_
  | .ret value =>
    match value with
    | some e => accessed_expr e
    | none => ∅
  | .loop body => accessed_stmts body
  | .brk => ∅
  | .switch selector cases default =>
    accessed_expr selector ∪ accessed_cases cases ∪ accessed_stmts default
  | .forLoop header body =>
    (match header.init with
      | some (.varDecl stmt) =>
        match stmt.initializer with
        | some init => accessed_expr init
        | none => ∅
      | none => ∅) ∪
    (match header.condition with
      | some condition => accessed_expr condition
      | none => ∅) ∪
    (match header.update with
      | some (.assignment stmt) =>
        (match stmt.lhs with
          | .phony => ∅
          | .expr e => accessed_lhs e) ∪ accessed_expr stmt.rhs
      | none => ∅) ∪
    accessed_stmts body

/-- Accessed names of a statement list. -/
def accessed_stmts : List Statement → Finset String
  | [] => ∅
  | s :: rest => accessed_stmt s ∪ accessed_stmts rest

/-- Accessed names of an optional else chain. -/
def accessed_else_opt : Option Else → Finset String
  | none => ∅
  | some (.ifBranch condition body else_) =>
    accessed_expr condition ∪ accessed_stmts body ∪ accessed_else_opt else_
  | some (.elseBranch body) => accessed_stmts body

/-- Accessed names of a switch-case list. -/
def accessed_cases : List SwitchCase → Finset String
  | [] => ∅
  | .mk _ body :: rest => accessed_stmts body ∪ accessed_cases rest

end

/-- Accessed names of a function list. -/
def accessed_fns : List FnDecl → Finset String
  | [] => ∅
  | f :: rest => accessed_stmts f.body ∪ accessed_fns rest

/-- Accessed names of a module. -/
def accessed_module (m : Module) : Finset String :=
  accessed_fns m.functions

/-- Names read in an assignment LHS per the spec's words: a plain
identifier does not count, only index expressions under
`Postfix::ArrayIndex` do. -/
def specReads_lhs : LhsExprNode → Finset String
  | .mk _ e =>
    match e with
    | .ident _ => ∅
    | .Postfix e p => specReads_lhs e ∪ accessed_postfix p

mutual

/-- Names read in a statement per the spec's words. -/
def specReads_stmt : Statement → Finset String
  | .letDecl _ initializer => accessed_expr initializer
  | .varDecl decl =>
    match decl.initializer with
    | some init => accessed_expr init
    | none => ∅
  | .assignment stmt =>
    (match stmt.lhs with
      | .phony => ∅
      | .expr e => specReads_lhs e) ∪ accessed_expr stmt.rhs
  | .compound stmts => specReads_stmts stmts
  | .ifStmt condition body else_ =>
    accessed_expr condition ∪ specReads_stmts body ∪ specReads_else_opt else_
  | .ret value =>
    match value with
    | some e => accessed_expr e
    | none => ∅
  | .loop body => specReads_stmts body
  | .brk => ∅
  | .switch selector cases default =>
    accessed_expr selector ∪ specReads_cases cases ∪ specReads_stmts default
  | .forLoop header body =>
    (match header.init with
      | some (.varDecl stmt) =>
        match stmt.initializer with
        | some init => accessed_expr init
        | none => ∅
      | none => ∅) ∪
    (match header.condition with
      | some condition => accessed_expr condition
      | none => ∅) ∪
    (match header.update with
      | some (.assignment stmt) =>
        (match stmt.lhs with
          | .phony => ∅
          | .expr e => specReads_lhs e) ∪ accessed_expr stmt.rhs
      | none => ∅) ∪
    specReads_stmts body

/-- Names read in a statement list per the spec's words. -/
def specReads_stmts : List Statement → Finset String
  | [] => ∅
  | s :: rest => specReads_stmt s ∪ specReads_stmts rest

/-- Names read in an optional else chain per the spec's words. -/
def specReads_else_opt : Option Else → Finset String
  | none => ∅
  | some (.ifBranch condition body else_) =>
    accessed_expr condition ∪ specReads_stmts body ∪ specReads_else_opt else_
  | some (.elseBranch body) => specReads_stmts body

/-- Names read in a switch-case list per the spec's words. -/
def specReads_cases : List SwitchCase → Finset String
  | [] => ∅
  | .mk _ body :: rest => specReads_stmts body ∪ specReads_cases rest

end

/-- Names read in a function list per the spec's words. -/
def specReads_fns : List FnDecl → Finset String
  | [] => ∅
  | f :: rest => specReads_stmts f.body ∪ specReads_fns rest

/-- Names read in a module per the spec's words: every expression of
every statement form, with plain assignment-LHS identifiers excluded. -/
def specReads_module (m : Module) : Finset String :=
  specReads_fns m.functions

end harness

namespace harness

/-- A module whose only statement is the assignment `x = 1;`: the name
`x` occurs only as the plain LHS identifier and is never read. -/
def moduleLhsOnly : Module :=
  ⟨[⟨"main",
    [.assignment ⟨.expr (.mk (.scalar .i32) (.ident "x")),
      .mk (.scalar .i32) (.lit (.int 1))⟩]⟩]⟩

/-- The module of scenario S6: reads `x` in an `if` condition, reads `y`
inside a switch case body, and never mentions `z`. -/
def moduleS6 : Module :=
  ⟨[⟨"main",
    [.ifStmt (.mk (.scalar .bool) (.var "x")) [] none,
     .switch (.mk (.scalar .i32) (.lit (.int 0)))
       [.mk (.int 0) [.letDecl "a" (.mk (.scalar .i32) (.var "y"))]]
       []]⟩]⟩

end harness

/-! ## The wgslsmith expression generator
(`wgslsmith/src/generator/expr.rs`)

`gen_expr` and its helpers are embedded from the source.  The
`crate::types` and `crate::scope` modules it draws on are not part of
the sources, so `TypeConstraints` (a bitmask over the twelve `DataType`
variants with popcount-scan uniform selection) and `Scope` are modelled
from the spec (§3, §4.1, §4.2).  Randomness is an explicit stream of
draws, and the generator itself takes a fuel parameter and returns
`none` both on fuel exhaustion and on any `unwrap` panic. -/

namespace gen

/-- Scalar types of the generator's type system (spec §3). -/
inductive ScalarType where
  | bool
  | i32
  | u32
deriving DecidableEq, Repr, Fintype

/-- Vector widths: `n ∈ {2,3,4}` (spec §3). -/
inductive VecSize where
  | two
  | three
  | four
deriving DecidableEq, Repr, Fintype

/-- The number of components of a vector width. -/
def VecSize.toNat : VecSize → Nat
  | .two => 2
  | .three => 3
  | .four => 4

/-- Modelled from the spec: `DataType` is `Scalar(ScalarType)` or
`Vector(n, ScalarType)`. -/
inductive DataType where
  | scalar (t : ScalarType)
  | vector (n : VecSize) (t : ScalarType)
deriving DecidableEq, Repr, Fintype

/-- The canonical position of a scalar type. -/
def ScalarType.index : ScalarType → Nat
  | .bool => 0
  | .i32 => 1
  | .u32 => 2

/-- Modelled from the spec: the canonical enumeration of the twelve
`DataType` variants underlying the `TypeConstraints` bitmask — the three
scalars first, then the vectors by width and component type. -/
def DataType.index : DataType → Nat
  | .scalar t => t.index
  | .vector n t => 3 + (n.toNat - 2) * 3 + t.index

/-- The twelve variants in canonical order. -/
def canonicalVariants : List DataType :=
  [.scalar .bool, .scalar .i32, .scalar .u32,
   .vector .two .bool, .vector .two .i32, .vector .two .u32,
   .vector .three .bool, .vector .three .i32, .vector .three .u32,
   .vector .four .bool, .vector .four .i32, .vector .four .u32]

/-- `impl From<DataType> for TypeConstraints`: the singleton mask. -/
def toMask (t : DataType) : Nat := 1 <<< t.index

/-- `TypeConstraints::Bool()`. -/
def BoolMask : Nat := toMask (.scalar .bool)

/-- `TypeConstraints::I32()`. -/
def I32Mask : Nat := toMask (.scalar .i32)

/-- `TypeConstraints::U32()`. -/
def U32Mask : Nat := toMask (.scalar .u32)

/-- `TypeConstraints::Int()`. -/
def IntMask : Nat := I32Mask ||| U32Mask

/-- `TypeConstraints::Scalar()`. -/
def ScalarMask : Nat := BoolMask ||| IntMask

/-- `TypeConstraints::VecBool()`. -/
def VecBoolMask : Nat :=
  toMask (.vector .two .bool) ||| toMask (.vector .three .bool) |||
    toMask (.vector .four .bool)

/-- `TypeConstraints::VecI32()`. -/
def VecI32Mask : Nat :=
  toMask (.vector .two .i32) ||| toMask (.vector .three .i32) |||
    toMask (.vector .four .i32)

/-- `TypeConstraints::VecU32()`. -/
def VecU32Mask : Nat :=
  toMask (.vector .two .u32) ||| toMask (.vector .three .u32) |||
    toMask (.vector .four .u32)

/-- `TypeConstraints::VecInt()`. -/
def VecIntMask : Nat := VecI32Mask ||| VecU32Mask

/-- `TypeConstraints::Vec()`. -/
def VecMask : Nat := VecBoolMask ||| VecIntMask

/-- `TypeConstraints::Unconstrained()`. -/
def UnconstrainedMask : Nat := ScalarMask ||| VecMask

/-- `TypeConstraints::union`. -/
def unionMask (a b : Nat) : Nat := a ||| b

/-- The wgslsmith `TypeConstraints::intersection`: plain bitwise and
(the empty mask is an expected, observable value here). -/
def interMask (a b : Nat) : Nat := a &&& b

/-- `TypeConstraints::intersects`. -/
def intersects (a b : Nat) : Bool := a &&& b != 0

/-- The random source: an explicit stream of draws. -/
def Rng : Type := List Nat

/-- One draw from the stream (an exhausted stream keeps yielding 0). -/
def next : Rng → Nat × Rng
  | [] => (0, [])
  | d :: r => (d, r)

/-- `SliceRandom::choose` (and the reservoir choice on iterators):
`none` on an empty slice, otherwise a uniformly chosen element, embedded
as indexing by a draw reduced modulo the length. -/
def chooseList {α : Type} (l : List α) (rng : Rng) : Option (α × Rng) :=
  match l with
  | [] => none
  | _ =>
    let (d, rng') := next rng
    (l.get? (d % l.length)).map (fun x => (x, rng'))

/-- The admitted variants of a mask, in canonical bit-scan order. -/
def admitted (mask : Nat) : List DataType :=
  canonicalVariants.filter (fun t => mask &&& toMask t != 0)

/-- Modelled from the spec: `TypeConstraints::select(rng)` counts set
bits, samples a uniform index in `[0, popcount)` from the seeded RNG,
and scans bits in canonical order; the empty mask is a fatal assertion
(`none`). -/
def select (mask : Nat) (rng : Rng) : Option (DataType × Rng) :=
  chooseList (admitted mask) rng

/-- Modelled from the spec: a scope is an environment of typed
bindings, enumerable in a stable order. -/
def Scope : Type := List (String × DataType)

/-- Modelled from the spec: `Scope::intersects` — some visible binding's
type lies in the constraint set. -/
def scopeIntersects (scope : Scope) (cons : Nat) : Bool :=
  scope.any (fun p => intersects cons (toMask p.2))

/-- Literals (`Lit`), integer payloads as 32-bit patterns. -/
inductive Lit where
  | bool (b : Bool)
  | int (pattern : Nat)
  | uint (pattern : Nat)
deriving DecidableEq, Repr

/-- `UnOp` of the generator's AST. -/
inductive UnOp where
  | neg
  | not
  | bitNot
deriving DecidableEq, Repr

/-- `BinOp` of the generator's AST. -/
inductive BinOp where
  | plus | minus | times | divide | mod
  | bitAnd | bitOr | bitXOr | lShift | rShift
  | logAnd | logOr
deriving DecidableEq, Repr

mutual

/-- An expression node carrying its resolved `data_type`. -/
inductive ExprNode where
  | mk (dataType : DataType) (expr : Expr)

/-- The expression forms `gen_expr` produces. -/
inductive Expr where
  | lit (l : Lit)
  | typeCons (t : DataType) (args : List ExprNode)
  | var (name : String)
  | unOp (op : UnOp) (e : ExprNode)
  | binOp (op : BinOp) (left : ExprNode) (right : ExprNode)

end

/-- The `data_type` field of a node. -/
def ExprNode.dataType : ExprNode → DataType
  | .mk t _ => t

/-- The `ExprType` enum of `expr.rs`. -/
inductive ExprType where
  | lit
  | typeCons
  | var
  | unOp
  | binOp
deriving DecidableEq, Repr

/-- `MAX_EXPR_DEPTH`: the literal `5` of `self.depth < 5` in
`gen_expr`. -/
def MAX_EXPR_DEPTH : Nat := 5

/-- The `allowed` vector built at the top of `gen_expr`, push for
push: `Lit` under a scalar intersection, `TypeCons` under a vector
intersection, and — only below the depth cap — `UnOp` unconditionally,
`BinOp` under a `Scalar ∪ VecInt` intersection, and `Var` when the
scope has a matching binding. -/
def allowedProductions (scope : Scope) (cons : Nat) (depth : Nat) :
    List ExprType :=
  (if intersects cons ScalarMask then [ExprType.lit] else []) ++
  (if intersects cons VecMask then [ExprType.typeCons] else []) ++
  (if depth < MAX_EXPR_DEPTH then
    [ExprType.unOp] ++
    (if intersects cons (unionMask ScalarMask VecIntMask)
      then [ExprType.binOp] else []) ++
    (if scopeIntersects scope cons then [ExprType.var] else [])
  else [])

/-- `gen_un_op`: the admitted unary operators in push order, then a
uniform choice (`unwrap` on the empty list is `none`). -/
def gen_un_op (cons : Nat) (rng : Rng) : Option (UnOp × Rng) :=
  chooseList
    ((if intersects cons (unionMask I32Mask VecI32Mask)
        then [UnOp.neg] else []) ++
     (if intersects cons (unionMask BoolMask VecBoolMask)
        then [UnOp.not] else []) ++
     (if intersects cons (unionMask IntMask VecIntMask)
        then [UnOp.bitNot] else []))
    rng

/-- `gen_bin_op`: the ten arithmetic/bitwise/shift operators under an
`Int ∪ VecInt` intersection, the two logical ones under a `Bool`
intersection, then a uniform choice. -/
def gen_bin_op (cons : Nat) (rng : Rng) : Option (BinOp × Rng) :=
  chooseList
    ((if intersects cons (unionMask IntMask VecIntMask)
        then [BinOp.plus, BinOp.minus, BinOp.times, BinOp.divide,
          BinOp.mod, BinOp.bitAnd, BinOp.bitOr, BinOp.bitXOr,
          BinOp.lShift, BinOp.rShift]
        else []) ++
     (if intersects cons BoolMask
        then [BinOp.logAnd, BinOp.logOr] else []))
    rng

/-- `gen_lit`: select a concrete scalar type from
`constraints ∩ Scalar`, then draw a random value of that type. -/
def gen_lit (cons : Nat) (rng : Rng) : Option ((Lit × DataType) × Rng) :=
  match select (interMask cons ScalarMask) rng with
  | none => none
  | some (t, rng) =>
    let (d, rng) := next rng
    match t with
    | .scalar .bool => some ((.bool (d % 2 == 1), t), rng)
    | .scalar .i32 => some ((.int (d % 2 ^ 32), t), rng)
    | .scalar .u32 => some ((.uint (d % 2 ^ 32), t), rng)
    | _ => none

/-- The `for _ in 0..n { args.push(self.gen_expr(&constraints)) }` loop
of the `TypeCons` branch, abstracted over the generation of one
argument. -/
def gen_args (genOne : Rng → Option (ExprNode × Rng)) :
    Rng → Nat → Option (List ExprNode × Rng) := fun rng n =>
  match n with
  | 0 => some ([], rng)
  | n + 1 =>
    match genOne rng with
    | none => none
    | some (e, rng) =>
      match gen_args genOne rng n with
      | none => none
      | some (args, rng) => some (e :: args, rng)

/-- `gen_expr` from `expr.rs`.  `fuel` only bounds the recursion for the
embedding (`none` when exhausted); every `unwrap` panic is `none`.  Note
that the `UnOp`/`BinOp` branches recurse at `depth + 1` (the
`self.depth += 1 … -= 1` bracket) while the `TypeCons` branch generates
its arguments at the *same* depth. -/
def gen_expr (fuel : Nat) (rng : Rng) (scope : Scope) (cons : Nat)
    (depth : Nat) : Option (ExprNode × Rng) :=
  match fuel with
  | 0 => none
  | fuel + 1 =>
    match chooseList (allowedProductions scope cons depth) rng with
    | none => none
    | some (et, rng) =>
      match et with
      | .lit =>
        match gen_lit cons rng with
        | none => none
        | some ((lit, t), rng) => some (⟨t, .lit lit⟩, rng)
      | .typeCons =>
        match select (interMask cons VecMask) rng with
        | none => none
        | some (dataType, rng) =>
          let nt : Nat × ScalarType :=
            match dataType with
            | .scalar t => (1, t)
            | .vector n t => (n.toNat, t)
          match gen_args
              (fun rng => gen_expr fuel rng scope (toMask (.scalar nt.2)) depth)
              rng nt.1 with
          | none => none
          | some (args, rng) => some (⟨dataType, .typeCons dataType args⟩, rng)
      | .unOp =>
        match gen_un_op cons rng with
        | none => none
        | some (op, rng) =>
          let cons2 :=
            match op with
            | .neg => interMask cons (unionMask I32Mask VecI32Mask)
            | .not => interMask cons (unionMask BoolMask VecBoolMask)
            | .bitNot => interMask cons (unionMask IntMask VecIntMask)
          match gen_expr fuel rng scope cons2 (depth + 1) with
          | none => none
          | some (e, rng) => some (⟨e.dataType, .unOp op e⟩, rng)
      | .binOp =>
        match gen_bin_op cons rng with
        | none => none
        | some (op, rng) =>
          let lcons :=
            match op with
            | .logAnd | .logOr => interMask cons BoolMask
            | _ => interMask cons (unionMask IntMask VecIntMask)
          match gen_expr fuel rng scope lcons (depth + 1) with
          | none => none
          | some (l, rng) =>
            let rcons :=
              match op with
              | .lShift | .rShift =>
                match l.dataType with
                | .scalar _ => U32Mask
                | .vector n _ => toMask (.vector n .u32)
              | _ => toMask l.dataType
            match gen_expr fuel rng scope rcons (depth + 1) with
            | none => none
            | some (r, rng) => some (⟨l.dataType, .binOp op l r⟩, rng)
      | .var =>
        match chooseList
            (scope.filter (fun p => intersects cons (toMask p.2))) rng with
        | none => none
        | some ((name, t), rng) => some (⟨t, .var name⟩, rng)

end gen

namespace gen

mutual

/-- Nesting depth of an expression tree, counting every expression node
(including `TypeCons` arguments) as one level. -/
def heightE : ExprNode → Nat
  | .mk _ e =>
    match e with
    | .lit _ => 1
    | .var _ => 1
    | .typeCons _ args => 1 + heightL args
    | .unOp _ e => 1 + heightE e
    | .binOp _ l r => 1 + max (heightE l) (heightE r)

/-- Maximum nesting depth over a list of nodes. -/
def heightL : List ExprNode → Nat
  | [] => 0
  | e :: rest => max (heightE e) (heightL rest)

end

mutual

/-- The shift-typing invariant: below every
`BinOp(LShift|RShift, l, r)`, the right operand's type is the `U32`
scalar when `l` is scalar and `vecN<U32>` of the same arity when `l` is
a vector. -/
def shiftOkE : ExprNode → Bool
  | .mk _ e =>
    match e with
    | .lit _ => true
    | .var _ => true
    | .typeCons _ args => shiftOkL args
    | .unOp _ e => shiftOkE e
    | .binOp op l r =>
      shiftOkE l && shiftOkE r &&
        (if op = .lShift ∨ op = .rShift then
          (match l.dataType with
            | .scalar _ => r.dataType == .scalar .u32
            | .vector n _ => r.dataType == .vector n .u32)
        else true)

/-- `shiftOkE` over a list of nodes. -/
def shiftOkL : List ExprNode → Bool
  | [] => true
  | e :: rest => shiftOkE e && shiftOkL rest

end

/-- The nesting depth of a generation result (`0` for a failure). -/
def heightResult (o : Option (ExprNode × Rng)) : Nat :=
  match o with
  | some (e, _) => heightE e
  | none => 0

end gen

/-! ## The early `ast` crate's statements and their writer
(`ast/src/stmt.rs`)

`Statement` here is the six-variant form of `ast/src/stmt.rs` (with
`AssignmentLhs` being `Underscore` or `Simple(name, postfixes)`).  The
expression type and its `Display` live in a module that is not among the
sources, so statements are parameterized by an abstract expression type
`E` together with its rendering `showE`.  `indenter::indented` writes
four spaces at the start of every line. -/

namespace ast0

/-- The crate's `Postfix`, over an abstract expression type. -/
inductive Pfix (E : Type) where
  | arrayIndex (index : E)
  | member (field : String)

/-- `AssignmentLhs` from `ast/src/stmt.rs`. -/
inductive AssignmentLhs (E : Type) where
  | underscore
  | simple (name : String) (postfixes : List (Pfix E))

/-- `Statement` from `ast/src/stmt.rs`. -/
inductive Statement (E : Type) where
  | letDecl (name : String) (value : E)
  | varDecl (name : String) (value : E)
  | assignment (lhs : AssignmentLhs E) (rhs : E)
  | compound (stmts : List (Statement E))
  | ifStmt (cond : E) (stmts : List (Statement E))
  | ret (value : Option E)

/-- `Statement::into_compount_statement`: the inner statements of a
`Compound`, with `none` modelling the `unreachable!()` panic on every
other variant. -/
def Statement.into_compount_statement {E : Type} :
    Statement E → Option (List (Statement E))
  | .compound stmts => some stmts
  | _ => none

/-- `impl Display for AssignmentLhs`. -/
def displayLhs {E : Type} (showE : E → String) : AssignmentLhs E → String
  | .underscore => "_"
  | .simple name postfixes =>
    name ++ String.join (postfixes.map fun p =>
      match p with
      | .arrayIndex index => "[" ++ showE index ++ "]"
      | .member field => "." ++ field)

/-- Four spaces inserted after every newline of the payload. -/
def indentAfterNewlines : List Char → List Char
  | [] => []
  | c :: rest =>
    if c = '\n' then c :: ' ' :: ' ' :: ' ' :: ' ' :: indentAfterNewlines rest
    else c :: indentAfterNewlines rest

/-- `indenter::indented`: every line of the payload is prefixed with
four spaces. -/
def indentLines (s : String) : String :=
  ⟨' ' :: ' ' :: ' ' :: ' ' :: indentAfterNewlines s.data⟩

mutual

/-- `impl Display for Statement`, with `writeln!` emitting `\n` and
`indented(f)` indenting nested statements one level. -/
def displayStatement {E : Type} (showE : E → String) : Statement E → String
  | .letDecl name value => "let " ++ name ++ " = " ++ showE value ++ ";"
  | .varDecl name value => "var " ++ name ++ " = " ++ showE value ++ ";"
  | .assignment lhs rhs => displayLhs showE lhs ++ " = " ++ showE rhs ++ ";"
  | .compound stmts => "\x7b\n" ++ displayStatements showE stmts ++ "\x7d"
  | .ifStmt cond stmts =>
    "if (" ++ showE cond ++ ") \x7b\n" ++ displayStatements showE stmts ++ "\x7d"
  | .ret value =>
    "return" ++
      (match value with
        | some v => " " ++ showE v
        | none => "") ++ ";"

/-- The `for stmt in stmts { writeln!(indented(f), "{}", stmt)? }`
loop: each statement is indented one level and terminated by `\n`. -/
def displayStatements {E : Type} (showE : E → String) :
    List (Statement E) → String
  | [] => ""
  | s :: rest =>
    indentLines (displayStatement showE s) ++ "\n" ++
      displayStatements showE rest

end

end ast0

/-! # Theorems -/

/-! ## The variable-access scan (claim C1) -/

namespace harness

theorem visit_expr_laws :
    (∀ (vars : Finset String) (node : ExprNode),
      visit_expr vars node = vars \ accessed_expr node) ∧
    (∀ (vars : Finset String) (p : Postfix),
      visit_postfix vars p = vars \ accessed_postfix p) ∧
    (∀ (vars : Finset String) (es : List ExprNode),
      visit_exprs vars es = vars \ accessed_exprs es) := by
  apply visit_expr.mutual_induct <;> intros <;>
    simp_all [visit_expr, visit_postfix, visit_exprs, accessed_expr,
      accessed_postfix, accessed_exprs, Finset.erase_eq, sdiff_sdiff_left]

theorem visit_lhs_expr_eq (vars : Finset String) (node : LhsExprNode) :
    visit_lhs_expr vars node = vars \ accessed_lhs node := by
  match node with
  | .mk dt (.ident i) =>
    simp [visit_lhs_expr, accessed_lhs, Finset.erase_eq]
  | .mk dt (.Postfix e p) =>
    rw [show visit_lhs_expr vars (.mk dt (.Postfix e p))
        = visit_postfix (visit_lhs_expr vars e) p from rfl]
    rw [visit_lhs_expr_eq vars e, visit_expr_laws.2.1, sdiff_sdiff_left]
    simp [accessed_lhs]

theorem visit_stmt_laws :
    (∀ (vars : Finset String) (s : Statement),
      visit_stmt vars s = vars \ accessed_stmt s) ∧
    (∀ (vars : Finset String) (cs : List SwitchCase),
      visit_cases vars cs = vars \ accessed_cases cs) ∧
    (∀ (vars : Finset String) (ss : List Statement),
      visit_stmts vars ss = vars \ accessed_stmts ss) ∧
    (∀ (vars : Finset String) (oe : Option Else),
      visit_else_opt vars oe = vars \ accessed_else_opt oe) := by
  apply visit_stmt.mutual_induct <;> (try dsimp only) <;> intros <;>
    (try simp_all [visit_stmt, visit_cases, visit_stmts, visit_else_opt,
      accessed_stmt, accessed_cases, accessed_stmts, accessed_else_opt,
      visit_expr_laws.1, visit_lhs_expr_eq, sdiff_sdiff_left])
  case case4 =>
    rename_i vars stmt
    obtain ⟨lhs, rhs⟩ := stmt
    cases lhs <;> simp [sdiff_sdiff_left]
  case case12 =>
    rename_i vars header body ih
    obtain ⟨init, cond, update⟩ := header
    rcases init with _ | ⟨⟨nm, iE⟩⟩ <;>
      rcases cond with _ | cE <;>
      rcases update with _ | ⟨⟨ulhs, urhs⟩⟩ <;>
      (try rcases iE with _ | iEx) <;>
      (try rcases ulhs with _ | ulhsE) <;>
      simp_all [sdiff_sdiff_left]

theorem visit_fns_eq (vars : Finset String) (fs : List FnDecl) :
    visit_fns vars fs = vars \ accessed_fns fs := by
  induction fs generalizing vars with
  | nil => simp [visit_fns, accessed_fns]
  | cons f rest ih =>
    simp [visit_fns, accessed_fns, visit_stmt_laws.2.2.1, ih, sdiff_sdiff_left]

/-- C1 (amended): `remove_accessed_vars` removes from the candidate
set exactly the names the module *accesses*: every `Var` read in any
expression of any statement form (if/else chains, loops, switch cases
and defaults, for-loop headers), every index expression under
`Postfix::ArrayIndex`, and also every identifier at the base of an
`Assignment` LHS — contrary to the original claim, a plain LHS
identifier *is* removed.  The scenario-S6 instance holds: a module that
reads `x` in an `if` condition and `y` in a switch case body and never
touches `z` reduces `{x, y, z}` to `{z}`. -/
theorem remove_accessed_vars_correct :
    (∀ (vars : Finset String) (m : Module),
      remove_accessed_vars vars m = vars \ accessed_module m) ∧
    remove_accessed_vars {"x", "y", "z"} moduleS6 = {"z"} := by
  constructor
  · intro vars m
    simp [remove_accessed_vars, accessed_module, visit_fns_eq]
  · decide

/-- C1 (counterexample to the claim as stated): in the module whose
only statement is `x = 1;`, the name `x` is read in no expression
(`specReads_module` is empty), yet `remove_accessed_vars` removes it —
the plain `Assignment` LHS identifier does count as an access. -/
theorem remove_accessed_vars_counterexample :
    specReads_module moduleLhsOnly = ∅ ∧
    remove_accessed_vars {"x"} moduleLhsOnly = ∅ ∧
    remove_accessed_vars {"x"} moduleLhsOnly ≠ {"x"} := by decide

end harness

/-! ## The root-crate `TypeConstraints` (claims C3, C7, C8) -/

namespace types0

/-- C7: on every constructible non-empty mask (a submask of
`UNCONSTRAINED = 7`), `select` reduces its uniform sample modulo the
popcount, every sampled index returns a variant whose discriminant bit
is set in the mask (never one outside it), and each admitted variant is
produced by exactly one sampled index in `[0, popcount)` — uniform over
the admitted set. -/
theorem select_uniform_over_mask (mask : Nat) (hlt : mask < 8) (hne : mask ≠ 0) :
    (∀ t, select mask t = select mask (t % count_ones mask)) ∧
    (∀ k, k < count_ones mask →
      ∃ dt, select mask k = some dt ∧ mask &&& dt.discr ≠ 0) ∧
    (∀ dt : DataType, mask &&& dt.discr ≠ 0 →
      ((Finset.range (count_ones mask)).filter
        (fun k => select mask k = some dt)).card = 1) := by
  refine ⟨fun t => by simp [select, Nat.mod_mod_of_dvd], ?_, ?_⟩
  · exact (by decide :
      ∀ mask, mask < 8 → mask ≠ 0 → ∀ k, k < count_ones mask →
        ∃ dt, select mask k = some dt ∧ mask &&& dt.discr ≠ 0) mask hlt hne
  · exact (by decide :
      ∀ mask, mask < 8 → mask ≠ 0 → ∀ dt : DataType, mask &&& dt.discr ≠ 0 →
        ((Finset.range (count_ones mask)).filter
          (fun k => select mask k = some dt)).card = 1) mask hlt hne

/-- Witness for C7 at the full mask `UNCONSTRAINED = 7`. -/
theorem select_uniform_over_mask_witness :
    (7 : Nat) < 8 ∧ (7 : Nat) ≠ 0 ∧
    ((∀ t, select 7 t = select 7 (t % count_ones 7)) ∧
     (∀ k, k < count_ones 7 →
        ∃ dt, select 7 k = some dt ∧ 7 &&& dt.discr ≠ 0) ∧
     (∀ dt : DataType, 7 &&& dt.discr ≠ 0 →
        ((Finset.range (count_ones 7)).filter
          (fun k => select 7 k = some dt)).card = 1)) :=
  ⟨by decide, by decide, select_uniform_over_mask 7 (by decide) (by decide)⟩

/-- C8: `select` on the empty mask never returns a `DataType`: the
embedded result is `none`, the model of the debug assertion / the
`gen_range(0..0)` panic. -/
theorem select_empty_mask_panics : ∀ t, select 0 t = none := by
  intro t
  have h : count_ones 0 = 0 := by decide
  simp [select, h]

/-- C3 (evidence): `TypeConstraints::select` in `src/types.rs` draws
its sample from `rand::thread_rng()`, not from any caller-supplied
seeded RNG; with the seed and options held fixed, two different
thread-local draws over the mask `INT` yield different data types, so
generation through this `select` is not a function of (seed, options). -/
theorem select_consults_thread_rng :
    select INT 0 = some DataType.SInt ∧
    select INT 1 = some DataType.UInt ∧
    select INT 0 ≠ select INT 1 := by decide

end types0

/-! ## The expression generator (claims C2, C4, C5, C6) -/

namespace gen

theorem toMask_eq_pow (t : DataType) : toMask t = 2 ^ t.index := by
  simp [toMask, Nat.shiftLeft_eq]

theorem and_toMask_ne_zero_iff (m : Nat) (t : DataType) :
    m &&& toMask t ≠ 0 ↔ m.testBit t.index := by
  rw [toMask_eq_pow, Nat.and_two_pow]
  cases h : m.testBit t.index <;>
    simp [h, Nat.pos_iff_ne_zero, Nat.pos_pow_of_pos]

theorem intersects_toMask_iff (m : Nat) (t : DataType) :
    intersects m (toMask t) = true ↔ m.testBit t.index := by
  simp [intersects, and_toMask_ne_zero_iff]

theorem index_inj : ∀ t t' : DataType, t.index = t'.index → t = t' := by decide

theorem chooseList_mem {α : Type} {l : List α} {rng : Rng} {x : α} {r' : Rng}
    (h : chooseList l rng = some (x, r')) : x ∈ l := by
  match l with
  | [] => simp [chooseList] at h
  | a :: rest =>
    simp only [chooseList] at h
    obtain ⟨y, hy, hxy⟩ := Option.map_eq_some'.mp h
    cases hxy
    exact List.get?_mem hy

theorem select_testBit {mask : Nat} {rng : Rng} {t : DataType} {r : Rng}
    (h : select mask rng = some (t, r)) : mask.testBit t.index := by
  have hm := chooseList_mem h
  simp only [admitted, List.mem_filter] at hm
  have := hm.2
  simp only [bne_iff_ne, ne_eq] at this
  exact (and_toMask_ne_zero_iff mask t).mp this

theorem gen_args_mem {genOne : Rng → Option (ExprNode × Rng)} :
    ∀ {rng : Rng} {n : Nat} {args : List ExprNode} {r' : Rng},
      gen_args genOne rng n = some (args, r') →
      ∀ e ∈ args, ∃ rng1 rng2, genOne rng1 = some (e, rng2) := by
  intro rng n
  induction n generalizing rng with
  | zero =>
    intro args r' h e he
    simp [gen_args] at h
    simp [h.1] at he
  | succ n ih =>
    intro args r' h e he
    rw [gen_args] at h
    split at h
    · exact absurd h (by simp)
    · rename_i e1 rng1 h1
      split at h
      · exact absurd h (by simp)
      · rename_i args1 rng2 h2
        injection h with h
        injection h with ha hr
        subst ha
        rcases List.mem_cons.mp he with rfl | hmem
        · exact ⟨rng, rng1, h1⟩
        · exact ih h2 e hmem

/-- Type soundness of the generator: every produced node's type lies in
the requested constraint set. -/
theorem gen_expr_testBit :
    ∀ (fuel : Nat) (rng : Rng) (scope : Scope) (cons depth : Nat)
      (e : ExprNode) (r : Rng),
      gen_expr fuel rng scope cons depth = some (e, r) →
      cons.testBit e.dataType.index := by
  intro fuel
  induction fuel with
  | zero => intro rng scope cons depth e r h; simp [gen_expr] at h
  | succ fuel ih =>
    intro rng scope cons depth e r h
    rw [gen_expr] at h
    split at h
    · exact absurd h (by simp)
    rename_i et rng1 hchoose
    split at h
    -- lit branch
    · split at h
      · exact absurd h (by simp)
      rename_i lit t rng2 hlit
      injection h with h
      injection h with he hr
      subst he
      simp only [gen_lit] at hlit
      split at hlit
      · exact absurd hlit (by simp)
      rename_i t' rng' hsel
      have hb := select_testBit hsel
      simp only [interMask, Nat.testBit_and, Bool.and_eq_true] at hb
      split at hlit <;> simp_all [ExprNode.dataType]
    -- typeCons branch
    · split at h
      · exact absurd h (by simp)
      rename_i dt rng2 hsel
      have hb := select_testBit hsel
      simp only [interMask, Nat.testBit_and, Bool.and_eq_true] at hb
      cases dt <;>
        (dsimp only at h
         split at h
         · exact absurd h (by simp)
         rename_i args rng3 hargs
         injection h with h
         injection h with he hr
         subst he
         simpa [ExprNode.dataType] using hb.1)
    -- unOp branch
    · split at h
      · exact absurd h (by simp)
      rename_i op rng2 hop
      cases op <;>
        (dsimp only at h
         split at h
         · exact absurd h (by simp)
         rename_i e1 rng3 hsub
         injection h with h
         injection h with he hr
         subst he
         have hb := ih _ _ _ _ _ _ hsub
         simp only [interMask, Nat.testBit_and, Bool.and_eq_true] at hb
         simpa [ExprNode.dataType] using hb.1)
    -- binOp branch
    · split at h
      · exact absurd h (by simp)
      rename_i op rng2 hop
      cases op <;>
        (dsimp only at h
         split at h
         · exact absurd h (by simp)
         rename_i l rng3 hl
         obtain ⟨ldt, lex⟩ := l
         dsimp only [ExprNode.dataType] at h
         have hb := ih _ _ _ _ _ _ hl
         simp only [interMask, Nat.testBit_and, Bool.and_eq_true,
           ExprNode.dataType] at hb
         cases ldt <;>
           ((try dsimp only at h)
            split at h
            · exact absurd h (by simp)
            rename_i r1 rng4 hr1
            injection h with h
            injection h with he hr
            subst he
            simpa [ExprNode.dataType] using hb.1))
    -- var branch
    · split at h
      · exact absurd h (by simp)
      rename_i name t rng2 hvar
      injection h with h
      injection h with he hr
      subst he
      have hm := chooseList_mem hvar
      simp only [List.mem_filter] at hm
      have := (intersects_toMask_iff cons t).mp hm.2
      simpa [ExprNode.dataType] using this

theorem dataType_of_testBit_U32 :
    ∀ t : DataType, U32Mask.testBit t.index → t = .scalar .u32 := by decide

theorem dataType_of_testBit_vecU32 :
    ∀ (n : VecSize) (t : DataType),
      (toMask (.vector n .u32)).testBit t.index → t = .vector n .u32 := by
  decide

theorem shiftOkL_forall :
    ∀ args : List ExprNode, (∀ e ∈ args, shiftOkE e = true) →
      shiftOkL args = true := by
  intro args h
  induction args with
  | nil => rfl
  | cons e rest ih =>
    rw [shiftOkL]
    simp only [Bool.and_eq_true]
    exact ⟨h e (by simp), ih fun x hx => h x (by simp [hx])⟩

end gen

namespace gen

/-- C6: every expression tree the generator returns satisfies the
shift-typing invariant — below every `BinOp(LShift|RShift, l, r)` the
right operand's type is the `U32` scalar when `l`'s type is scalar, and
`vecN<U32>` of the same arity when `l`'s type is `vecN<_>`. -/
theorem gen_expr_shift_typing :
    ∀ (fuel : Nat) (rng : Rng) (scope : Scope) (cons depth : Nat)
      (e : ExprNode) (r : Rng),
      gen_expr fuel rng scope cons depth = some (e, r) →
      shiftOkE e = true := by
  intro fuel
  induction fuel with
  | zero => intro rng scope cons depth e r h; simp [gen_expr] at h
  | succ fuel ih =>
    intro rng scope cons depth e r h
    rw [gen_expr] at h
    split at h
    · exact absurd h (by simp)
    rename_i et rng1 hchoose
    split at h
    -- lit branch
    · split at h
      · exact absurd h (by simp)
      rename_i lit t rng2 hlit
      injection h with h
      injection h with he hr
      subst he
      simp [shiftOkE]
    -- typeCons branch
    · split at h
      · exact absurd h (by simp)
      rename_i dt rng2 hsel
      cases dt <;>
        (dsimp only at h
         split at h
         · exact absurd h (by simp)
         rename_i args rng3 hargs
         injection h with h
         injection h with he hr
         subst he
         have hall : ∀ x ∈ args, shiftOkE x = true := by
           intro x hx
           obtain ⟨r1, r2, hg⟩ := gen_args_mem hargs x hx
           exact ih _ _ _ _ _ _ hg
         simp [shiftOkE, shiftOkL_forall args hall])
    -- unOp branch
    · split at h
      · exact absurd h (by simp)
      rename_i op rng2 hop
      cases op <;>
        (dsimp only at h
         split at h
         · exact absurd h (by simp)
         rename_i e1 rng3 hsub
         injection h with h
         injection h with he hr
         subst he
         have hs := ih _ _ _ _ _ _ hsub
         simp [shiftOkE, hs])
    -- binOp branch
    · split at h
      · exact absurd h (by simp)
      rename_i op rng2 hop
      cases op <;>
        (dsimp only at h
         split at h
         · exact absurd h (by simp)
         rename_i l rng3 hl
         obtain ⟨ldt, lex⟩ := l
         dsimp only [ExprNode.dataType] at h
         have hsl := ih _ _ _ _ _ _ hl
         cases ldt <;>
           ((try dsimp only at h)
            split at h
            · exact absurd h (by simp)
            rename_i r1 rng4 hr1
            have hsr := ih _ _ _ _ _ _ hr1
            obtain ⟨rdt, rex⟩ := r1
            injection h with h
            injection h with he hr
            subst he
            first
            | (have hrt := dataType_of_testBit_U32 _
                  (gen_expr_testBit _ _ _ _ _ _ _ hr1)
               simp only [ExprNode.dataType] at hrt
               subst hrt
               simp [shiftOkE, ExprNode.dataType, hsl, hsr])
            | (have hrt := dataType_of_testBit_vecU32 _ _
                  (gen_expr_testBit _ _ _ _ _ _ _ hr1)
               simp only [ExprNode.dataType] at hrt
               subst hrt
               simp [shiftOkE, ExprNode.dataType, hsl, hsr])
            | simp [shiftOkE, ExprNode.dataType, hsl, hsr]))
    -- var branch
    · split at h
      · exact absurd h (by simp)
      rename_i name t rng2 hvar
      injection h with h
      injection h with he hr
      subst he
      simp [shiftOkE]

/-- Witness for C6: a concrete seeded run that produces a left-shift
expression, to which the theorem applies. -/
theorem gen_expr_shift_typing_witness :
    Option.elim (gen_expr 20 [2, 8, 0, 0, 5, 0, 0, 9] [] I32Mask 0) False
      (fun p => shiftOkE p.1 = true) := by
  rcases hg : gen_expr 20 [2, 8, 0, 0, 5, 0, 0, 9] [] I32Mask 0 with _ | ⟨e, r⟩
  · have hs : (gen_expr 20 [2, 8, 0, 0, 5, 0, 0, 9] [] I32Mask 0).isSome
        = true := by decide
    rw [hg] at hs
    simp at hs
  · simp only [hg, Option.elim]
    exact gen_expr_shift_typing 20 _ [] I32Mask 0 e r hg

end gen

namespace gen

theorem mem_allowedProductions (scope : Scope) (cons depth : Nat) (et : ExprType) :
    et ∈ allowedProductions scope cons depth ↔
      (et = .lit ∧ intersects cons ScalarMask = true) ∨
      (et = .typeCons ∧ intersects cons VecMask = true) ∨
      (et = .unOp ∧ depth < MAX_EXPR_DEPTH) ∨
      (et = .binOp ∧ depth < MAX_EXPR_DEPTH ∧
        intersects cons (unionMask ScalarMask VecIntMask) = true) ∨
      (et = .var ∧ depth < MAX_EXPR_DEPTH ∧
        scopeIntersects scope cons = true) := by
  simp only [allowedProductions]
  split_ifs <;> cases et <;> simp_all

theorem depth_lt_of_unOp_mem {scope : Scope} {cons depth : Nat}
    (h : ExprType.unOp ∈ allowedProductions scope cons depth) :
    depth < MAX_EXPR_DEPTH := by
  rcases (mem_allowedProductions scope cons depth _).mp h with
    ⟨h, _⟩ | ⟨h, _⟩ | ⟨_, h⟩ | ⟨h, _⟩ | ⟨h, _⟩ <;> first | exact h | cases h

theorem depth_lt_of_binOp_mem {scope : Scope} {cons depth : Nat}
    (h : ExprType.binOp ∈ allowedProductions scope cons depth) :
    depth < MAX_EXPR_DEPTH := by
  rcases (mem_allowedProductions scope cons depth _).mp h with
    ⟨h, _⟩ | ⟨h, _⟩ | ⟨h, _⟩ | ⟨_, h, _⟩ | ⟨h, _⟩ <;> first | exact h | cases h

theorem interMask_vec_zero {cons : Nat} (hc : cons &&& VecMask = 0) (x : Nat) :
    interMask cons x &&& VecMask = 0 := by
  apply Nat.eq_of_testBit_eq
  intro i
  have := congrArg (fun v => v.testBit i) hc
  simp only [interMask, Nat.testBit_and, Nat.zero_testBit,
    Bool.and_eq_false_iff] at this ⊢
  tauto

theorem scalar_toMask_vec_zero :
    ∀ s : ScalarType, toMask (.scalar s) &&& VecMask = 0 := by decide

theorem u32Mask_vec_zero : U32Mask &&& VecMask = 0 := by decide

theorem vecMask_testBit_vector :
    ∀ (n : VecSize) (t : ScalarType),
      VecMask.testBit (DataType.vector n t).index := by decide

theorem not_vector_testBit_of_vec_zero {cons : Nat} (hc : cons &&& VecMask = 0)
    (n : VecSize) (t : ScalarType) :
    ¬ cons.testBit (DataType.vector n t).index := by
  intro hb
  have := congrArg (fun v => v.testBit (DataType.vector n t).index) hc
  simp [Nat.testBit_and, hb, vecMask_testBit_vector n t] at this

theorem heightL_le {b : Nat} :
    ∀ args : List ExprNode, (∀ e ∈ args, heightE e ≤ b) →
      heightL args ≤ b := by
  intro args h
  induction args with
  | nil => simp [heightL]
  | cons e rest ih =>
    rw [heightL]
    exact max_le (h e (by simp)) (ih fun x hx => h x (by simp [hx]))

theorem admitted_zero : admitted 0 = [] := by decide

/-- The two-level height bound: any result is at most `7 - min depth 5`
levels deep, and at most `6 - min depth 5` when the constraint set
admits no vector type. -/
theorem gen_expr_heights :
    ∀ (fuel : Nat) (rng : Rng) (scope : Scope) (cons depth : Nat)
      (e : ExprNode) (r : Rng),
      gen_expr fuel rng scope cons depth = some (e, r) →
      heightE e ≤ 7 - min depth 5 ∧
      (cons &&& VecMask = 0 → heightE e ≤ 6 - min depth 5) := by
  intro fuel
  induction fuel with
  | zero => intro rng scope cons depth e r h; simp [gen_expr] at h
  | succ fuel ih =>
    intro rng scope cons depth e r h
    rw [gen_expr] at h
    split at h
    · exact absurd h (by simp)
    rename_i et rng1 hchoose
    split at h
    -- lit branch
    · split at h
      · exact absurd h (by simp)
      rename_i lit t rng2 hlit
      injection h with h
      injection h with he hr
      subst he
      have hm : min depth 5 ≤ 5 := Nat.min_le_right _ _
      constructor <;> (try intro _) <;> (simp [heightE]; omega)
    -- typeCons branch
    · split at h
      · exact absurd h (by simp)
      rename_i dt rng2 hsel
      cases dt <;>
        (dsimp only at h
         split at h
         · exact absurd h (by simp)
         rename_i args rng3 hargs
         injection h with h
         injection h with he hr
         subst he
         have hall : ∀ x ∈ args, heightE x ≤ 6 - min depth 5 := by
           intro x hx
           obtain ⟨r1, r2, hg⟩ := gen_args_mem hargs x hx
           exact (ih _ _ _ _ _ _ hg).2 (scalar_toMask_vec_zero _)
         have hargs_le := heightL_le args hall
         have hm : min depth 5 ≤ 5 := Nat.min_le_right _ _
         constructor
         · simp [heightE]; omega
         · intro hc
           rw [show interMask cons VecMask = cons &&& VecMask from rfl,
             hc] at hsel
           simp [select, admitted_zero, chooseList] at hsel)
    -- unOp branch
    · split at h
      · exact absurd h (by simp)
      rename_i op rng2 hop
      have hd : depth < 5 := depth_lt_of_unOp_mem (chooseList_mem hchoose)
      cases op <;>
        (dsimp only at h
         split at h
         · exact absurd h (by simp)
         rename_i e1 rng3 hsub
         injection h with h
         injection h with he hr
         subst he
         constructor
         · have hs1 := (ih _ _ _ _ _ _ hsub).1
           simp [heightE]; omega
         · intro hc
           have hs2 := (ih _ _ _ _ _ _ hsub).2 (interMask_vec_zero hc _)
           simp [heightE]; omega)
    -- binOp branch
    · split at h
      · exact absurd h (by simp)
      rename_i op rng2 hop
      have hd : depth < 5 := depth_lt_of_binOp_mem (chooseList_mem hchoose)
      cases op <;>
        (dsimp only at h
         split at h
         · exact absurd h (by simp)
         rename_i l rng3 hl
         obtain ⟨ldt, lex⟩ := l
         dsimp only [ExprNode.dataType] at h
         cases ldt <;>
           ((try dsimp only at h)
            split at h
            · exact absurd h (by simp)
            rename_i r1 rng4 hr1
            injection h with h
            injection h with he hr
            subst he
            constructor
            · have hl1 := (ih _ _ _ _ _ _ hl).1
              have hrb := (ih _ _ _ _ _ _ hr1).1
              simp [heightE]; omega
            · intro hc
              first
              | (have hl2 := (ih _ _ _ _ _ _ hl).2 (interMask_vec_zero hc _)
                 have hr2 := (ih _ _ _ _ _ _ hr1).2 u32Mask_vec_zero
                 simp [heightE]; omega)
              | (have hl2 := (ih _ _ _ _ _ _ hl).2 (interMask_vec_zero hc _)
                 have hr2 := (ih _ _ _ _ _ _ hr1).2 (scalar_toMask_vec_zero _)
                 simp [heightE]; omega)
              | (have ht := gen_expr_testBit _ _ _ _ _ _ _ hl
                 simp only [ExprNode.dataType, interMask, Nat.testBit_and,
                   Bool.and_eq_true] at ht
                 exact absurd ht.1 (not_vector_testBit_of_vec_zero hc _ _))))
    -- var branch
    · split at h
      · exact absurd h (by simp)
      rename_i name t rng2 hvar
      injection h with h
      injection h with he hr
      subst he
      have hm : min depth 5 ≤ 5 := Nat.min_le_right _ _
      constructor <;> (try intro _) <;> (simp [heightE]; omega)

end gen

namespace gen

/-- C4 (amended): the depth counter is only incremented by the
`UnOp`/`BinOp` productions and is capped at `MAX_EXPR_DEPTH = 5`, but
`TypeCons` arguments are generated at the *same* depth, so the nesting
depth of a returned tree (counting every expression node, `TypeCons`
arguments included) is bounded by `MAX_EXPR_DEPTH + 2 = 7`, not by
`MAX_EXPR_DEPTH`. -/
theorem gen_expr_height_bound :
    ∀ (fuel : Nat) (rng : Rng) (scope : Scope) (cons : Nat)
      (e : ExprNode) (r : Rng),
      gen_expr fuel rng scope cons 0 = some (e, r) →
      heightE e ≤ MAX_EXPR_DEPTH + 2 := by
  intro fuel rng scope cons e r h
  have := (gen_expr_heights fuel rng scope cons 0 e r h).1
  simpa [MAX_EXPR_DEPTH] using this

/-- Witness for C4's amended bound at a concrete seeded run. -/
theorem gen_expr_height_bound_witness :
    heightResult (gen_expr 30
      [1, 0, 1, 0, 1, 0, 1, 0, 1, 0, 0, 0, 0, 0, 7, 0, 0, 7]
      [] VecI32Mask 0) ≤ MAX_EXPR_DEPTH + 2 := by
  rcases hg : gen_expr 30
      [1, 0, 1, 0, 1, 0, 1, 0, 1, 0, 0, 0, 0, 0, 7, 0, 0, 7]
      [] VecI32Mask 0 with _ | ⟨e, r⟩
  · simp [heightResult]
  · exact gen_expr_height_bound 30 _ [] VecI32Mask e r hg

/-- C4 (counterexample to the claim as stated): a run of `gen_expr`
at depth 0 that chains five unary operators, a vector constructor and a
literal returns a tree of nesting depth 7 > `MAX_EXPR_DEPTH` — counting
`TypeCons` arguments as nesting levels, the bound 5 is violated. -/
theorem gen_expr_depth_counterexample :
    heightResult (gen_expr 30
      [1, 0, 1, 0, 1, 0, 1, 0, 1, 0, 0, 0, 0, 0, 7, 0, 0, 7]
      [] VecI32Mask 0) = 7 ∧ 7 > MAX_EXPR_DEPTH := by decide

/-- C2 (amended): a call of `gen_expr` whose admitted production set
is empty does *not* fall back to a literal — it panics
(`allowed.choose(rng).unwrap()` on an empty vector), embedded as `none`;
and the empty set is unreachable from any call whose constraints contain
at least one type variant (in particular any nonempty subset of
`Scalar ∪ Vec`, at every depth). -/
theorem gen_expr_empty_admitted :
    (∀ (scope : Scope) (cons depth fuel : Nat) (rng : Rng),
      allowedProductions scope cons depth = [] →
      gen_expr fuel rng scope cons depth = none) ∧
    (∀ (scope : Scope) (cons depth : Nat),
      cons &&& UnconstrainedMask ≠ 0 →
      allowedProductions scope cons depth ≠ []) := by
  constructor
  · intro scope cons depth fuel rng hempty
    match fuel with
    | 0 => rw [gen_expr]
    | fuel + 1 => rw [gen_expr]; rw [hempty]; rfl
  · intro scope cons depth hne
    have : cons &&& ScalarMask ≠ 0 ∨ cons &&& VecMask ≠ 0 := by
      by_contra hcon
      push_neg at hcon
      apply hne
      apply Nat.eq_of_testBit_eq
      intro i
      have h1 := congrArg (fun v => v.testBit i) hcon.1
      have h2 := congrArg (fun v => v.testBit i) hcon.2
      simp only [Nat.testBit_and, Nat.zero_testBit, Bool.and_eq_false_iff,
        UnconstrainedMask, Nat.testBit_or] at h1 h2 ⊢
      rcases h1 with h1 | h1
      · simp [h1]
      · rcases h2 with h2 | h2
        · simp [h2]
        · simp [Nat.testBit_or, h1, h2]
    rcases this with hs | hv
    · simp [allowedProductions, intersects, hs]
    · simp [allowedProductions, intersects, hv]

/-- Witness for C2's amended claim at concrete inputs. -/
theorem gen_expr_empty_admitted_witness :
    gen_expr 3 [1, 2] [] 0 5 = none ∧
    allowedProductions [] 1 9 ≠ [] :=
  ⟨gen_expr_empty_admitted.1 [] 0 5 3 [1, 2] (by decide),
   gen_expr_empty_admitted.2 [] 1 9 (by decide)⟩

/-- C2 (counterexample to the claim as stated): at a call with an
empty admitted production set (empty constraints, depth exhausted), the
generator does not emit a `Lit` — it fails (the embedded `unwrap` panic
`none`). -/
theorem gen_expr_no_fallback_counterexample :
    allowedProductions [] 0 5 = [] ∧
    (gen_expr 10 [0, 0, 0] [] 0 5).isNone = true := by decide

theorem allowed_nodup :
    ∀ (scope : Scope) (cons depth : Nat),
      (allowedProductions scope cons depth).Nodup := by
  intro scope cons depth
  simp only [allowedProductions]
  split_ifs <;> decide

theorem chooseList_at {α : Type} (l : List α) (k : Nat) (rest : Rng)
    (h : k < l.length) :
    chooseList l (k :: rest) = some (l.get ⟨k, h⟩, rest) := by
  match l with
  | [] => simp at h
  | a :: t =>
    have hm : k % (a :: t).length = k := Nat.mod_eq_of_lt h
    simp only [chooseList, next]
    rw [hm, List.get?_eq_get h]
    rfl

/-- C5: the admission table of `gen_expr` is exactly as specified —
`Lit` iff the constraints meet `Scalar`, `TypeCons` iff they meet `Vec`,
`UnOp` iff the depth cap allows, `BinOp` iff additionally the
constraints meet `Scalar ∪ VecInt`, `Var` iff additionally the scope has
a matching binding — the admitted list has no duplicates, and the
production is chosen uniformly: the `k`-th draw residue selects the
`k`-th admitted production. -/
theorem gen_expr_admission_table :
    (∀ (scope : Scope) (cons depth : Nat),
      (ExprType.lit ∈ allowedProductions scope cons depth ↔
        intersects cons ScalarMask = true) ∧
      (ExprType.typeCons ∈ allowedProductions scope cons depth ↔
        intersects cons VecMask = true) ∧
      (ExprType.unOp ∈ allowedProductions scope cons depth ↔
        depth < MAX_EXPR_DEPTH) ∧
      (ExprType.binOp ∈ allowedProductions scope cons depth ↔
        depth < MAX_EXPR_DEPTH ∧
          intersects cons (unionMask ScalarMask VecIntMask) = true) ∧
      (ExprType.var ∈ allowedProductions scope cons depth ↔
        depth < MAX_EXPR_DEPTH ∧ scopeIntersects scope cons = true) ∧
      (allowedProductions scope cons depth).Nodup) ∧
    (∀ (scope : Scope) (cons depth k : Nat) (rest : Rng)
      (h : k < (allowedProductions scope cons depth).length),
      chooseList (allowedProductions scope cons depth) (k :: rest) =
        some ((allowedProductions scope cons depth).get ⟨k, h⟩, rest)) := by
  constructor
  · intro scope cons depth
    refine ⟨?_, ?_, ?_, ?_, ?_, allowed_nodup scope cons depth⟩ <;>
      simp [mem_allowedProductions]
  · intro scope cons depth k rest h
    exact chooseList_at _ k rest h

/-- Witness for C5 at a concrete admission set. -/
theorem gen_expr_admission_table_witness :
    (ExprType.typeCons ∈ allowedProductions [] UnconstrainedMask 0 ↔
      intersects UnconstrainedMask VecMask = true) ∧
    chooseList (allowedProductions [] UnconstrainedMask 0) (1 :: []) =
      some ((allowedProductions [] UnconstrainedMask 0).get
        ⟨1, by decide⟩, []) :=
  ⟨(gen_expr_admission_table.1 [] UnconstrainedMask 0).2.1,
   gen_expr_admission_table.2 [] UnconstrainedMask 0 1 [] (by decide)⟩

end gen

/-! ## The statement writer and `into_compount_statement`
(claims C9, C10) -/

namespace ast0

/-- C9: statement serialization is a fixed deterministic function of
the statement — `let <name> = <expr>;`, `var <name> = <expr>;`,
`<lhs> = <rhs>;`, `return[ <expr>];`, with `Compound` and `If` bodies
brace-delimited, each nested statement indented by exactly one
four-space increment and terminated by a newline, and `If` rendered as
`if (<cond>) {`; nesting two compounds indents the innermost statement
by exactly two increments. -/
theorem statement_display_forms :
    (∀ (E : Type) (showE : E → String) (name : String) (value : E),
      displayStatement showE (.letDecl name value) =
        "let " ++ name ++ " = " ++ showE value ++ ";") ∧
    (∀ (E : Type) (showE : E → String) (name : String) (value : E),
      displayStatement showE (.varDecl name value) =
        "var " ++ name ++ " = " ++ showE value ++ ";") ∧
    (∀ (E : Type) (showE : E → String) (lhs : AssignmentLhs E) (rhs : E),
      displayStatement showE (.assignment lhs rhs) =
        displayLhs showE lhs ++ " = " ++ showE rhs ++ ";") ∧
    (∀ (E : Type) (showE : E → String) (value : E),
      displayStatement showE (.ret (some value)) =
        "return " ++ showE value ++ ";") ∧
    (∀ (E : Type) (showE : E → String),
      displayStatement showE (.ret (none : Option E)) = "return;") ∧
    (∀ (E : Type) (showE : E → String) (stmts : List (Statement E)),
      displayStatement showE (.compound stmts) =
        "\x7b\n" ++ displayStatements showE stmts ++ "\x7d") ∧
    (∀ (E : Type) (showE : E → String) (cond : E) (stmts : List (Statement E)),
      displayStatement showE (.ifStmt cond stmts) =
        "if (" ++ showE cond ++ ") \x7b\n" ++ displayStatements showE stmts ++ "\x7d") ∧
    (∀ (E : Type) (showE : E → String) (s : Statement E)
      (rest : List (Statement E)),
      displayStatements showE (s :: rest) =
        indentLines (displayStatement showE s) ++ "\n" ++
          displayStatements showE rest) ∧
    displayStatement (fun _ : Unit => "e")
        (.compound [.compound [.letDecl "x" ()]]) =
      "\x7b\n    \x7b\n        let x = e;\n    \x7d\n\x7d" := by
  refine ⟨?_, ?_, ?_, ?_, ?_, ?_, ?_, ?_, by decide⟩ <;>
    (intros; rfl)

/-- C10: `into_compount_statement` returns the inner statement list
of a `Compound` and panics (`none` in the embedding) on every other
statement variant. -/
theorem into_compount_statement_spec :
    (∀ (E : Type) (stmts : List (Statement E)),
      Statement.into_compount_statement (.compound stmts) = some stmts) ∧
    (∀ (E : Type) (s : Statement E),
      (∀ stmts : List (Statement E), s ≠ .compound stmts) →
      Statement.into_compount_statement s = none) := by
  constructor
  · intro E stmts
    rfl
  · intro E s hs
    cases s <;> first | rfl | exact absurd rfl (hs _)

/-- Witness for C10 at the `Return` variant. -/
theorem into_compount_statement_spec_witness :
    Statement.into_compount_statement (Statement.ret (E := Unit) none)
      = none :=
  into_compount_statement_spec.2 Unit (Statement.ret none)
    (fun stmts h => by cases h)

end ast0
